import Mathlib

/-!
Verification development for the `vgutil` command-line tool
(package `main`: `main.go` plus the embedded `default-page.tmpl`).

The definitions below are a shallow embedding of the Go source:

* `stripSlug` embeds the function `stripSlug` (global replacement of the
  regular expression `([_-][a-f0-9]{8}[.])` by `"."`, scanning left to
  right over non-overlapping matches, continuing after each match);
* `baseNameS` embeds `filepath.Base` (Unix rules), `extS` embeds
  `filepath.Ext`, `trimSuffixS` embeds `strings.TrimSuffix`;
* `insertFingerprint` embeds the output-name construction of the
  `hash-rename` command (`outBaseNoExt + "-" + hash + outExt`);
* `buildLoop` / `buildFmap` embed the `fmap` construction loop of the
  `page-tmpl` command, with the result of each `os.Stat` call supplied
  as data (`StatResult`); `log.Fatalf` is modelled by `Except.error`;
* `fileNameFunc` / `fileExistsFunc` embed the `FileName` / `FileExists`
  template functions (first component: the returned value; second
  component: the diagnostic log lines emitted when `--verbose` is set);
* `tmplOutBranch` embeds the `--tmpl-out` branch of `page-tmpl`,
  including the fact that the `err` returned by `os.Stat` there is a
  new variable shadowing the outer `err`, which therefore stays `nil`
  for the two checks that follow;
* `defaultPageTmpl` is the verbatim content of `default-page.tmpl`
  (embedded in the Go binary via `go:embed`), and `funcMapNames` lists
  the names bound in the `template.FuncMap` literal.

Timestamps (`time.Time`) are modelled as `Nat`: `IsZero` becomes
`= 0` and `After` becomes `>`.
-/

/-- Matches the regex character class `[_-]` (the fingerprint separator). -/
def isSepChar (c : Char) : Bool := c == '-' || c == '_'

/-- Matches the regex character class `[a-f0-9]` (lowercase hex digit). -/
def isHexLower (c : Char) : Bool :=
  (decide ('a' ≤ c) && decide (c ≤ 'f')) || (decide ('0' ≤ c) && decide (c ≤ '9'))

/-- Whether ten consecutive characters form a match of the pattern
`[_-][a-f0-9]{8}[.]` used by `stripSlugRE`. -/
def slugCond (c h1 h2 h3 h4 h5 h6 h7 h8 d : Char) : Bool :=
  isSepChar c && isHexLower h1 && isHexLower h2 && isHexLower h3 && isHexLower h4 &&
    isHexLower h5 && isHexLower h6 && isHexLower h7 && isHexLower h8 && (d == '.')

/-- `stripSlugRE.ReplaceAllString in "."` on a character list: scan left to
right; at a match of `[_-][a-f0-9]{8}[.]` emit `"."` and continue after the
matched span (matches are non-overlapping, leftmost first); otherwise keep
the character and move one position right. -/
def stripSlugL : List Char → List Char
  | c :: h1 :: h2 :: h3 :: h4 :: h5 :: h6 :: h7 :: h8 :: d :: rest =>
    if slugCond c h1 h2 h3 h4 h5 h6 h7 h8 d then
      '.' :: stripSlugL rest
    else
      c :: stripSlugL (h1 :: h2 :: h3 :: h4 :: h5 :: h6 :: h7 :: h8 :: d :: rest)
  | c :: rest => c :: stripSlugL rest
  | [] => []

/-- The function `stripSlug` of `main.go`. -/
def stripSlug (s : String) : String := ⟨stripSlugL s.data⟩

/-- Whether the slug pattern matches at the head of the list. -/
def matchesAt : List Char → Bool
  | c :: h1 :: h2 :: h3 :: h4 :: h5 :: h6 :: h7 :: h8 :: d :: _ =>
    slugCond c h1 h2 h3 h4 h5 h6 h7 h8 d
  | _ => false

/-- Whether the slug pattern matches anywhere in the list. -/
def hasMatchB : List Char → Bool
  | [] => false
  | c :: r => matchesAt (c :: r) || hasMatchB r

/-- `filepath.Base` (Unix rules) on a character list: empty path gives `"."`;
trailing slashes are stripped; everything up to the last remaining slash is
dropped; if nothing remains the path was all slashes and the result is `"/"`. -/
def baseNameL (l : List Char) : List Char :=
  if l.isEmpty then ['.']
  else
    let l1 := (l.reverse.dropWhile (fun c => c == '/')).reverse
    let l2 := (l1.reverse.takeWhile (fun c => c != '/')).reverse
    if l2.isEmpty then ['/'] else l2

/-- `filepath.Base` on strings. -/
def baseNameS (s : String) : String := ⟨baseNameL s.data⟩

/-- `filepath.Ext` on a character list: scan from the end until a path
separator; the extension is the suffix starting at the first `'.'` found,
empty if none is found before a separator or the start. -/
def extL (l : List Char) : List Char :=
  if (l.reverse.dropWhile (fun c => !(c == '.' || c == '/'))).head? = some '.' then
    '.' :: (l.reverse.takeWhile (fun c => !(c == '.' || c == '/'))).reverse
  else []

/-- `filepath.Ext` on strings. -/
def extS (s : String) : String := ⟨extL s.data⟩

/-- `strings.TrimSuffix` on a character list. -/
def trimSuffixL (l suf : List Char) : List Char :=
  if suf.isSuffixOf l then l.take (l.length - suf.length) else l

/-- `strings.TrimSuffix` on strings. -/
def trimSuffixS (s suf : String) : String := ⟨trimSuffixL s.data suf.data⟩

/-- The output-name construction of the `hash-rename` command applied to a
base name `L` and hash string `H` (the role played by `outNoSlug` and
`hhexval` in the source): `outExt := filepath.Ext(L)`,
`outBaseNoExt := strings.TrimSuffix(filepath.Base(L), outExt)`, and the
new name is `outBaseNoExt + "-" + H + outExt`. -/
def insertFingerprint (L H : String) : String :=
  trimSuffixS (baseNameS L) (extS L) ++ "-" ++ H ++ extS L

/-- The `fmapEntry` struct of the `page-tmpl` command. -/
structure FmapEntry where
  name : String
  path : String
  modTime : Nat
deriving DecidableEq, Repr

/-- The zero value of `fmapEntry` (what a Go map read returns for an absent
key). -/
def zeroEntry : FmapEntry := ⟨"", "", 0⟩

/-- Outcome of an `os.Stat` call on a candidate path. -/
inductive StatResult where
  | ok (modTime : Nat)
  | notExist
  | otherError
deriving DecidableEq, Repr

/-- Association-list model of the Go map `fmap`; lookup of a key. -/
def lookupA : List (String × FmapEntry) → String → Option FmapEntry
  | [], _ => none
  | (k', v') :: rest, k => if k' = k then some v' else lookupA rest k

/-- Association-list model of the Go map `fmap`; `fmap[key] = v`
(replace in place, or append when the key is absent). -/
def updateA : List (String × FmapEntry) → String → FmapEntry → List (String × FmapEntry)
  | [], k, v => [(k, v)]
  | (k', v') :: rest, k, v =>
    if k' = k then (k, v) :: rest else (k', v') :: updateA rest k v

/-- The logical key of a candidate path:
`stripSlug(filepath.Base(fn))`. -/
def keyOf (fn : String) : String := stripSlug (baseNameS fn)

/-- The `fmap` construction loop of `page-tmpl`, one candidate at a time in
input order, with each candidate's `os.Stat` outcome given as data:
a `notExist` stat failure skips the candidate (warning only); any other
stat failure is `log.Fatalf` (modelled as `Except.error` carrying the
offending path); on success the entry is replaced only when the stored
slot's `modTime.IsZero()` holds or the new `ModTime()` is strictly
`After` the stored one. -/
def buildLoop : List (String × FmapEntry) → List (String × StatResult) →
    Except String (List (String × FmapEntry))
  | m, [] => .ok m
  | m, (fn, st) :: rest =>
    match st with
    | .notExist => buildLoop m rest
    | .otherError => .error fn
    | .ok t =>
      if ((lookupA m (keyOf fn)).getD zeroEntry).modTime = 0 ∨
          ((lookupA m (keyOf fn)).getD zeroEntry).modTime < t then
        buildLoop (updateA m (keyOf fn) ⟨baseNameS fn, fn, t⟩) rest
      else
        buildLoop m rest

/-- The whole `fmap` construction, starting from the empty map. -/
def buildFmap (files : List (String × StatResult)) :
    Except String (List (String × FmapEntry)) :=
  buildLoop [] files

/-- The `FileName` template function: joins its parts with
`strings.Join(parts, "")`, looks the key up in `fmap`, and returns the
stored `name` (or `""` when absent).  The second component holds the
diagnostic line written by the deferred `log.Printf` when `--verbose`
is set; the returned value does not depend on it. -/
def fileNameFunc (verbose : Bool) (m : List (String × FmapEntry))
    (parts : List String) : String × List String :=
  let key := String.join parts
  let ret := match lookupA m key with
    | none => ""
    | some fme => fme.name
  (ret, if verbose then ["FileName " ++ key ++ " returning " ++ ret] else [])

/-- The `FileExists` template function, analogous to `fileNameFunc`. -/
def fileExistsFunc (verbose : Bool) (m : List (String × FmapEntry))
    (parts : List String) : Bool × List String :=
  let key := String.join parts
  let ret := (lookupA m key).isSome
  (ret,
    if verbose then
      ["FileExists " ++ key ++ " returning " ++ (if ret then "true" else "false")]
    else [])

/-- The `fmap` construction together with the diagnostic dump of the map
that the `page-tmpl` command logs when `--verbose` is set. -/
def buildFmapV (verbose : Bool) (files : List (String × StatResult)) :
    Except String (List (String × FmapEntry) × List String) :=
  match buildLoop [] files with
  | .error p => .error p
  | .ok m =>
    .ok (m, if verbose then ["fmap after reading inputs: " ++ reprStr m] else [])

/-- The verbatim content of `default-page.tmpl`, embedded into the Go
binary by `go:embed` as `defaultPageTmpl` (one piece per source line). -/
def defaultPageTmpl : String :=
  "<!doctype html>\n"
  ++ "\x7b\x7b$prefix := \"\"\x7d\x7d\n"
  ++ "\x7b\x7b$pageName := PageBaseName\x7d\x7d\n"
  ++ "<html>\n"
  ++ "<head>\n"
  ++ "<meta charset=\"utf-8\"/>\n"
  ++ "<title>Vugu App</title>\n"
  ++ "\x7b\x7brange FileNameListForExt \".css\"\x7d\x7d\n"
  ++ "<link rel=\"stylesheet\" href=\"\x7b\x7b$prefix\x7d\x7d\x7b\x7bFileName .\x7d\x7d\" />\n"
  ++ "\x7b\x7belse\x7d\x7d\n"
  ++ "\x7b\x7bif FileExists $pageName \".css\"\x7d\x7d\n"
  ++ "<link rel=\"stylesheet\" href=\"\x7b\x7b$prefix\x7d\x7d\x7b\x7bFileName $pageName \".css\"\x7d\x7d\" />\n"
  ++ "\x7b\x7bend\x7d\x7d\n"
  ++ "\x7b\x7bend\x7d\x7d\n"
  ++ "</head>\n"
  ++ "<body>\n"
  ++ "<div id=\"vugu_mount_point\">\n"
  ++ "<img style=\"position: absolute; top: 50%; left: 50%;\" src=\"https://cdnjs.cloudflare.com/ajax/libs/galleriffic/2.0.1/css/loader.gif\">\n"
  ++ "</div>\n"
  ++ "<script src=\"https://cdn.jsdelivr.net/npm/text-encoding@0.7.0/lib/encoding.min.js\"></script> <!-- MS Edge polyfill -->\n"
  ++ "\x7b\x7brange FileNameListForExt \".js\"\x7d\x7d\n"
  ++ "<script src=\"\x7b\x7b$prefix\x7d\x7d\x7b\x7bFileName .\x7d\x7d\"></script>\n"
  ++ "\x7b\x7belse\x7d\x7d\n"
  ++ "<script src=\"\x7b\x7b$prefix\x7d\x7d\x7b\x7bFileName \"wasm_exec.js\"\x7d\x7d\"></script>\n"
  ++ "\x7b\x7bif FileExists $pageName \".js\"\x7d\x7d\n"
  ++ "<script src=\"\x7b\x7b$prefix\x7d\x7d\x7b\x7bFileName $pageName \".js\"\x7d\x7d\"></script>\n"
  ++ "\x7b\x7bend\x7d\x7d\n"
  ++ "\x7b\x7bend\x7d\x7d\n"
  ++ "<script>\n"
  ++ "var wasmSupported = (typeof WebAssembly === \"object\");\n"
  ++ "if (wasmSupported) \x7b\n"
  ++ "\tif (!WebAssembly.instantiateStreaming) \x7b // polyfill\n"
  ++ "\t\tWebAssembly.instantiateStreaming = async (resp, importObject) => \x7b\n"
  ++ "\t\t\tconst source = await (await resp).arrayBuffer();\n"
  ++ "\t\t\treturn await WebAssembly.instantiate(source, importObject);\n"
  ++ "\t\t\x7d;\n"
  ++ "\t\x7d\n"
  ++ "\tvar wasmReq = fetch(\"\x7b\x7b$prefix\x7d\x7d\x7b\x7bFileName $pageName \".wasm\"\x7d\x7d\").then(function(res) \x7b\n"
  ++ "\t\tif (res.ok) \x7b\n"
  ++ "\t\t\tconst go = new Go();\n"
  ++ "\t\t\tWebAssembly.instantiateStreaming(res, go.importObject).then((result) => \x7b\n"
  ++ "\t\t\t\tgo.run(result.instance);\n"
  ++ "\t\t\t\x7d);\t\t\n"
  ++ "\t\t\x7d else \x7b\n"
  ++ "\t\t\tres.text().then(function(txt) \x7b\n"
  ++ "\t\t\t\tvar el = document.getElementById(\"vugu_mount_point\");\n"
  ++ "\t\t\t\tel.style = \x27font-family: monospace; background: black; color: red; padding: 10px\x27;\n"
  ++ "\t\t\t\tel.innerText = txt;\n"
  ++ "\t\t\t\x7d)\n"
  ++ "\t\t\x7d\n"
  ++ "\t\x7d)\n"
  ++ "\x7d else \x7b\n"
  ++ "\tdocument.getElementById(\"vugu_mount_point\").innerHTML = \x27This application requires WebAssembly support.  Please upgrade your browser.\x27;\n"
  ++ "\x7d\n"
  ++ "</script>\n"
  ++ "</body>\n"
  ++ "</html>"

/-- Whether `pat` occurs at the head of `l` (character-list version of a
string prefix test). -/
def matchHere : List Char → List Char → Bool
  | [], _ => true
  | _ :: _, [] => false
  | a :: as, b :: bs => a == b && matchHere as bs

/-- Whether `pat` occurs anywhere in `l` as a contiguous run. -/
def occursIn (pat : List Char) : List Char → Bool
  | [] => matchHere pat []
  | c :: r => matchHere pat (c :: r) || occursIn pat r

/-- The names bound in the `template.FuncMap` literal of `page-tmpl`. -/
def funcMapNames : List String := ["PageBaseName", "FileName", "FileExists"]

/-- The default page base name used when `--in` is not given
(`pageBaseName := "index"`). -/
def defaultPageBaseName : String := "index"

/-- Outcome of the `--tmpl-out` branch of `page-tmpl`. -/
inductive TmplOutOutcome where
  | exitOkNoWrite
  | writeDefault (content : String)
  | fatalStat (e : String)
deriving DecidableEq, Repr

/-- Whether an `os.Stat` outcome is a nil error (the path exists). -/
def statErrIsNone : StatResult → Bool
  | .ok _ => true
  | _ => false

/-- Whether a `--tmpl-out` outcome is the fatal (`log.Fatal`) one. -/
def isFatalOutcome : TmplOutOutcome → Bool
  | .fatalStat _ => true
  | _ => false

/-- The `--tmpl-out` branch of `page-tmpl` (entered when the flag is a
non-empty path), as a function of `--force` and of the `os.Stat` outcome
for the target path.  Mirrors the source: the outer `var err error` is
declared first; inside `if !*pageTmplForce` the statement
`_, err := os.Stat(...)` declares a new, shadowing `err`, consulted only
by the `if err == nil { ...; return }` early exit; the following
`errors.Is(err, fs.ErrNotExist)` and `err != nil` checks read the outer
`err`, which is still `nil`, so the default template is written in every
remaining case. -/
def tmplOutBranch (force : Bool) (st : StatResult) : TmplOutOutcome :=
  let outerErr : Option String := none
  if force = false ∧ statErrIsNone st = true then
    .exitOkNoWrite
  else
    match outerErr with
    | some e => .fatalStat e
    | none => .writeDefault defaultPageTmpl


/-! ### Helper lemmas about the slug canonicalizer -/

/-- Unfolding equation of `stripSlugL` at a ten-character window. -/
theorem stripSlugL_cons10 (c h1 h2 h3 h4 h5 h6 h7 h8 d : Char) (rest : List Char) :
    stripSlugL (c :: h1 :: h2 :: h3 :: h4 :: h5 :: h6 :: h7 :: h8 :: d :: rest) =
      if slugCond c h1 h2 h3 h4 h5 h6 h7 h8 d then '.' :: stripSlugL rest
      else c :: stripSlugL (h1 :: h2 :: h3 :: h4 :: h5 :: h6 :: h7 :: h8 :: d :: rest) := rfl

/-- Unfolding equation of `matchesAt` at a ten-character window. -/
theorem matchesAt_cons10 (c h1 h2 h3 h4 h5 h6 h7 h8 d : Char) (rest : List Char) :
    matchesAt (c :: h1 :: h2 :: h3 :: h4 :: h5 :: h6 :: h7 :: h8 :: d :: rest) =
      slugCond c h1 h2 h3 h4 h5 h6 h7 h8 d := rfl

/-- When fewer than ten characters remain, the head cannot start a match. -/
theorem matchesAt_eq_false_of_short (c : Char) (rest : List Char)
    (hshape : ∀ (h1 h2 h3 h4 h5 h6 h7 h8 d : Char) (r : List Char),
      rest = h1 :: h2 :: h3 :: h4 :: h5 :: h6 :: h7 :: h8 :: d :: r → False) :
    matchesAt (c :: rest) = false := by
  rcases rest with _ | ⟨a1, _ | ⟨a2, _ | ⟨a3, _ | ⟨a4, _ | ⟨a5, _ | ⟨a6, _ | ⟨a7, _ | ⟨a8, _ | ⟨d, r⟩⟩⟩⟩⟩⟩⟩⟩⟩
  · rfl
  · rfl
  · rfl
  · rfl
  · rfl
  · rfl
  · rfl
  · rfl
  · rfl
  · exact (hshape a1 a2 a3 a4 a5 a6 a7 a8 d r rfl).elim

/-- When the slug pattern does not match at the head, the scan keeps the
head character and continues one position to the right. -/
theorem stripSlugL_cons_of_not_matchesAt (c : Char) (r : List Char)
    (h : matchesAt (c :: r) = false) : stripSlugL (c :: r) = c :: stripSlugL r := by
  rcases r with _ | ⟨a1, _ | ⟨a2, _ | ⟨a3, _ | ⟨a4, _ | ⟨a5, _ | ⟨a6, _ | ⟨a7, _ | ⟨a8, _ | ⟨d, rest⟩⟩⟩⟩⟩⟩⟩⟩⟩
  · rfl
  · rfl
  · rfl
  · rfl
  · rfl
  · rfl
  · rfl
  · rfl
  · rfl
  · rw [matchesAt_cons10] at h
    rw [stripSlugL_cons10, if_neg]
    simp [h]

/-- A head match of the slug pattern requires a dot among the characters. -/
theorem dot_mem_of_matchesAt (l : List Char) (h : matchesAt l = true) : '.' ∈ l := by
  rcases l with _ | ⟨c, _ | ⟨a1, _ | ⟨a2, _ | ⟨a3, _ | ⟨a4, _ | ⟨a5, _ | ⟨a6, _ | ⟨a7, _ | ⟨a8, _ | ⟨d, rest⟩⟩⟩⟩⟩⟩⟩⟩⟩⟩
  · exact Bool.noConfusion h
  · exact Bool.noConfusion h
  · exact Bool.noConfusion h
  · exact Bool.noConfusion h
  · exact Bool.noConfusion h
  · exact Bool.noConfusion h
  · exact Bool.noConfusion h
  · exact Bool.noConfusion h
  · exact Bool.noConfusion h
  · exact Bool.noConfusion h
  · rw [matchesAt_cons10] at h
    simp only [slugCond, Bool.and_eq_true, beq_iff_eq] at h
    simp [h.2]

/-- A dot-free character list contains no slug match anywhere. -/
theorem hasMatchB_eq_false_of_dot_not_mem (l : List Char) (h : '.' ∉ l) :
    hasMatchB l = false := by
  induction l with
  | nil => rfl
  | cons c r ih =>
    rw [hasMatchB, Bool.or_eq_false_iff]
    refine ⟨?_, ih fun hm => h (List.mem_cons_of_mem c hm)⟩
    cases hm : matchesAt (c :: r) with
    | false => rfl
    | true => exact absurd (dot_mem_of_matchesAt _ hm) h

/-- A list with no slug match anywhere is left unchanged by the scan. -/
theorem stripSlugL_eq_self_of_not_hasMatchB (l : List Char)
    (h : hasMatchB l = false) : stripSlugL l = l := by
  induction l with
  | nil => rfl
  | cons c r ih =>
    rw [hasMatchB, Bool.or_eq_false_iff] at h
    rw [stripSlugL_cons_of_not_matchesAt c r h.1, ih h.2]

/-- The scan never lengthens its input. -/
theorem length_stripSlugL_le (l : List Char) : (stripSlugL l).length ≤ l.length := by
  induction l using stripSlugL.induct with
  | case1 c h1 h2 h3 h4 h5 h6 h7 h8 d rest hcond ih =>
    rw [stripSlugL_cons10, if_pos hcond]
    simp only [List.length_cons]
    omega
  | case2 c h1 h2 h3 h4 h5 h6 h7 h8 d rest hcond ih =>
    rw [stripSlugL_cons10, if_neg hcond]
    simpa using ih
  | case3 c rest hshape ih =>
    rw [stripSlugL_cons_of_not_matchesAt c rest (matchesAt_eq_false_of_short c rest hshape)]
    simpa using ih
  | case4 => exact Nat.le_refl 0

/-- If the pattern matches somewhere, the scan strictly shortens the list
(a ten-character span is replaced by one character). -/
theorem length_stripSlugL_lt_of_hasMatchB (l : List Char)
    (h : hasMatchB l = true) : (stripSlugL l).length < l.length := by
  induction l using stripSlugL.induct with
  | case1 c h1 h2 h3 h4 h5 h6 h7 h8 d rest hcond ih =>
    rw [stripSlugL_cons10, if_pos hcond]
    have := length_stripSlugL_le rest
    simp only [List.length_cons]
    omega
  | case2 c h1 h2 h3 h4 h5 h6 h7 h8 d rest hcond ih =>
    rw [stripSlugL_cons10, if_neg hcond]
    rw [hasMatchB, matchesAt_cons10] at h
    have hc : slugCond c h1 h2 h3 h4 h5 h6 h7 h8 d = false := by
      cases hcc : slugCond c h1 h2 h3 h4 h5 h6 h7 h8 d with
      | false => rfl
      | true => exact absurd hcc hcond
    rw [hc, Bool.false_or] at h
    have := ih h
    simp only [List.length_cons] at this ⊢
    omega
  | case3 c rest hshape ih =>
    rw [stripSlugL_cons_of_not_matchesAt c rest (matchesAt_eq_false_of_short c rest hshape)]
    rw [hasMatchB, matchesAt_eq_false_of_short c rest hshape, Bool.false_or] at h
    have := ih h
    simp only [List.length_cons] at this ⊢
    omega
  | case4 => exact Bool.noConfusion h

/-! ### Helper lemmas for the hash-rename round trip -/

/-- Inserting `-a1..a8` in front of the dot cannot create a match starting
strictly inside the (nonempty) prefix `B` of a match-free name `B ++ '.' :: E`:
the inserted dash would have to play a hex-digit or dot role, or the match
would already be present in the original name. -/
theorem matchesAt_insert_eq_false (c : Char) (B : List Char)
    (a1 a2 a3 a4 a5 a6 a7 a8 : Char) (E : List Char)
    (hnm : hasMatchB ((c :: B) ++ '.' :: E) = false) :
    matchesAt ((c :: B) ++ '-' :: a1 :: a2 :: a3 :: a4 :: a5 :: a6 :: a7 :: a8 :: '.' :: E) =
      false := by
  have hdash : isHexLower '-' = false := rfl
  have hdashd : ('-' == '.') = false := rfl
  rcases B with _ | ⟨b1, _ | ⟨b2, _ | ⟨b3, _ | ⟨b4, _ | ⟨b5, _ | ⟨b6, _ | ⟨b7, _ | ⟨b8, _ | ⟨b9, Brest⟩⟩⟩⟩⟩⟩⟩⟩⟩
  · simp only [List.nil_append, List.cons_append, matchesAt_cons10]
    simp [slugCond, hdash]
  · simp only [List.nil_append, List.cons_append, matchesAt_cons10]
    simp [slugCond, hdash]
  · simp only [List.nil_append, List.cons_append, matchesAt_cons10]
    simp [slugCond, hdash]
  · simp only [List.nil_append, List.cons_append, matchesAt_cons10]
    simp [slugCond, hdash]
  · simp only [List.nil_append, List.cons_append, matchesAt_cons10]
    simp [slugCond, hdash]
  · simp only [List.nil_append, List.cons_append, matchesAt_cons10]
    simp [slugCond, hdash]
  · simp only [List.nil_append, List.cons_append, matchesAt_cons10]
    simp [slugCond, hdash]
  · simp only [List.nil_append, List.cons_append, matchesAt_cons10]
    simp [slugCond, hdash]
  · simp only [List.nil_append, List.cons_append, matchesAt_cons10]
    simp [slugCond, hdashd]
  · simp only [List.cons_append] at hnm ⊢
    rw [hasMatchB, Bool.or_eq_false_iff] at hnm
    rw [matchesAt_cons10] at hnm ⊢
    exact hnm.1

/-- Scanning `B ++ "-a1..a8" ++ "." ++ E` where the original name
`B ++ "." ++ E` is match-free, `E` is dot-free and the `aᵢ` are lowercase
hex digits removes exactly the inserted fingerprint. -/
theorem stripSlugL_insert (a1 a2 a3 a4 a5 a6 a7 a8 : Char)
    (ha1 : isHexLower a1 = true) (ha2 : isHexLower a2 = true)
    (ha3 : isHexLower a3 = true) (ha4 : isHexLower a4 = true)
    (ha5 : isHexLower a5 = true) (ha6 : isHexLower a6 = true)
    (ha7 : isHexLower a7 = true) (ha8 : isHexLower a8 = true)
    (B E : List Char) (hE : '.' ∉ E)
    (hnm : hasMatchB (B ++ '.' :: E) = false) :
    stripSlugL (B ++ '-' :: a1 :: a2 :: a3 :: a4 :: a5 :: a6 :: a7 :: a8 :: '.' :: E) =
      B ++ '.' :: E := by
  induction B with
  | nil =>
    have hc : slugCond '-' a1 a2 a3 a4 a5 a6 a7 a8 '.' = true := by
      simp [slugCond, isSepChar, ha1, ha2, ha3, ha4, ha5, ha6, ha7, ha8]
    simp only [List.nil_append]
    rw [stripSlugL_cons10, if_pos hc,
      stripSlugL_eq_self_of_not_hasMatchB E (hasMatchB_eq_false_of_dot_not_mem E hE)]
  | cons c B' ih =>
    have hnm' : hasMatchB (B' ++ '.' :: E) = false := by
      have h2 := hnm
      rw [List.cons_append, hasMatchB, Bool.or_eq_false_iff] at h2
      exact h2.2
    have hhead := matchesAt_insert_eq_false c B' a1 a2 a3 a4 a5 a6 a7 a8 E hnm
    rw [List.cons_append] at hhead
    simp only [List.cons_append]
    rw [stripSlugL_cons_of_not_matchesAt _ _ hhead, ih hnm']

/-- `dropWhile` is the identity when no element satisfies the predicate. -/
theorem dropWhile_eq_self_of_all (p : Char → Bool) (m : List Char)
    (h : ∀ c ∈ m, p c = false) : m.dropWhile p = m := by
  cases m with
  | nil => rfl
  | cons c r => simp [List.dropWhile_cons, h c (List.mem_cons_self c r)]

/-- `takeWhile` is the identity when every element satisfies the predicate. -/
theorem takeWhile_eq_self_of_all (p : Char → Bool) (m : List Char)
    (h : ∀ c ∈ m, p c = true) : m.takeWhile p = m := by
  induction m with
  | nil => rfl
  | cons c r ih =>
    simp [List.takeWhile_cons, h c (List.mem_cons_self c r),
      ih fun c hc => h c (List.mem_cons_of_mem _ hc)]

/-- `filepath.Base` is the identity on nonempty slash-free names. -/
theorem baseNameL_eq_self (l : List Char) (h0 : l ≠ []) (h : ∀ c ∈ l, c ≠ '/') :
    baseNameL l = l := by
  have hd : l.reverse.dropWhile (fun c => c == '/') = l.reverse :=
    dropWhile_eq_self_of_all _ _ fun c hc => by
      simpa using h c (List.mem_reverse.mp hc)
  have ht : l.reverse.takeWhile (fun c => c != '/') = l.reverse :=
    takeWhile_eq_self_of_all _ _ fun c hc => by
      simpa using h c (List.mem_reverse.mp hc)
  rw [baseNameL]
  rw [if_neg (by simpa using h0)]
  simp only [hd, ht, List.reverse_reverse]
  rw [if_neg (by simpa using h0)]

/-- Structure of a name with a nonempty `filepath.Ext` extension: it splits
as `B ++ "." ++ E` with `E` dot-free, and the extension is `"." ++ E`. -/
theorem extL_structure (l : List Char) (h : extL l ≠ []) :
    ∃ B E, l = B ++ '.' :: E ∧ extL l = '.' :: E ∧ '.' ∉ E := by
  rw [extL] at h ⊢
  by_cases hc :
      (l.reverse.dropWhile (fun c => !(c == '.' || c == '/'))).head? = some '.'
  · rw [if_pos hc] at h ⊢
    refine ⟨(l.reverse.dropWhile (fun c => !(c == '.' || c == '/'))).tail.reverse,
      (l.reverse.takeWhile (fun c => !(c == '.' || c == '/'))).reverse, ?_, rfl, ?_⟩
    · cases hdrop : l.reverse.dropWhile (fun c => !(c == '.' || c == '/')) with
      | nil => rw [hdrop] at hc; exact absurd hc (by simp)
      | cons x rest =>
        rw [hdrop] at hc
        have hx : x = '.' := by simpa using hc
        subst hx
        conv_lhs => rw [← List.reverse_reverse l,
          ← List.takeWhile_append_dropWhile
            (p := fun c => !(c == '.' || c == '/')) (l := l.reverse)]
        rw [hdrop]
        simp [List.reverse_append]
    · intro hmem
      have := List.mem_takeWhile_imp (List.mem_reverse.mp hmem)
      simp at this
  · rw [if_neg hc] at h
    exact absurd rfl h

/-- `strings.TrimSuffix` removes an actual suffix. -/
theorem trimSuffixL_append (B s : List Char) : trimSuffixL (B ++ s) s = B := by
  rw [trimSuffixL, if_pos (by simp [List.isSuffixOf])]
  have hlen : (B ++ s).length - s.length = B.length := by
    simp [List.length_append]
  rw [hlen, List.take_left]

/-! ### Helper lemmas about the manifest builder -/

/-- Lookup after a map write: the written key returns the new value, every
other key is unaffected. -/
theorem lookupA_updateA (m : List (String × FmapEntry)) (k : String) (v : FmapEntry)
    (q : String) :
    lookupA (updateA m k v) q = if k = q then some v else lookupA m q := by
  induction m with
  | nil => simp [updateA, lookupA]
  | cons kv rest ih =>
    obtain ⟨k1, v1⟩ := kv
    by_cases hk : k1 = k
    · subst hk
      simp only [updateA, if_pos rfl, lookupA]
      split_ifs <;> rfl
    · simp only [updateA, if_neg hk, lookupA]
      by_cases h1 : k1 = q
      · by_cases h2 : k = q
        · exact absurd (h1.trans h2.symm) hk
        · simp [h1, h2]
      · by_cases h2 : k = q
        · subst h2
          simp [h1, ih]
        · simp [h1, h2, ih]

/-- A key present after a map write was present before or is the written key. -/
theorem mem_keys_updateA (m : List (String × FmapEntry)) (k : String) (v : FmapEntry)
    (x : String) (h : x ∈ (updateA m k v).map Prod.fst) :
    x ∈ m.map Prod.fst ∨ x = k := by
  induction m with
  | nil => simpa [updateA] using h
  | cons kv rest ih =>
    obtain ⟨k1, v1⟩ := kv
    by_cases hk : k1 = k
    · subst hk
      simp only [updateA, if_pos rfl] at h
      exact Or.inl (by simpa using h)
    · simp only [updateA, if_neg hk, List.map_cons, List.mem_cons] at h ⊢
      rcases h with h | h
      · exact Or.inl (Or.inl h)
      · rcases ih h with h' | h'
        · exact Or.inl (Or.inr h')
        · exact Or.inr h'

/-- A map write keeps the keys pairwise distinct. -/
theorem pairwise_keys_updateA (m : List (String × FmapEntry)) (k : String)
    (v : FmapEntry) (h : (m.map Prod.fst).Pairwise (fun a b => a ≠ b)) :
    ((updateA m k v).map Prod.fst).Pairwise (fun a b => a ≠ b) := by
  induction m with
  | nil => simp [updateA]
  | cons kv rest ih =>
    obtain ⟨k1, v1⟩ := kv
    simp only [List.map_cons, List.pairwise_cons] at h
    by_cases hk : k1 = k
    · subst hk
      rw [show updateA ((k1, v1) :: rest) k1 v = (k1, v) :: rest from by
        simp [updateA]]
      simp only [List.map_cons, List.pairwise_cons]
      exact h
    · simp only [updateA, if_neg hk, List.map_cons, List.pairwise_cons]
      refine ⟨?_, ih h.2⟩
      intro x hx
      rcases mem_keys_updateA rest k v x hx with h' | h'
      · exact h.1 x h'
      · exact h' ▸ hk

/-- The builder keeps the manifest keys pairwise distinct. -/
theorem buildLoop_pairwise (files : List (String × StatResult)) :
    ∀ m l, buildLoop m files = .ok l →
      (m.map Prod.fst).Pairwise (fun a b => a ≠ b) →
      (l.map Prod.fst).Pairwise (fun a b => a ≠ b) := by
  induction files with
  | nil =>
    intro m l h hm
    simp only [buildLoop, Except.ok.injEq] at h
    exact h ▸ hm
  | cons f rest ih =>
    obtain ⟨fn, st⟩ := f
    intro m l h hm
    cases st with
    | notExist => exact ih m l h hm
    | otherError => exact absurd h (by simp [buildLoop])
    | ok t =>
      simp only [buildLoop] at h
      split at h
      · exact ih _ l h (pairwise_keys_updateA m (keyOf fn) _ hm)
      · exact ih m l h hm

/-- Entries only get newer: an entry present before running the rest of the
loop is still present afterwards, with a modification time at least as
large. -/
theorem buildLoop_mono (files : List (String × StatResult)) :
    ∀ m l, buildLoop m files = .ok l → ∀ k e, lookupA m k = some e →
      ∃ e2, lookupA l k = some e2 ∧ e.modTime ≤ e2.modTime := by
  induction files with
  | nil =>
    intro m l h k e he
    simp only [buildLoop, Except.ok.injEq] at h
    exact ⟨e, h ▸ he, Nat.le_refl _⟩
  | cons f rest ih =>
    obtain ⟨fn, st⟩ := f
    intro m l h k e he
    cases st with
    | notExist => exact ih m l h k e he
    | otherError => exact absurd h (by simp [buildLoop])
    | ok t =>
      simp only [buildLoop] at h
      split at h
      · rename_i hcond
        by_cases hkq : keyOf fn = k
        · subst hkq
          rw [he, Option.getD_some] at hcond
          have hle : e.modTime ≤ t := by
            rcases hcond with h0 | hlt
            · omega
            · omega
          obtain ⟨e2, hl2, hle2⟩ :=
            ih _ l h (keyOf fn) ⟨baseNameS fn, fn, t⟩
              (by rw [lookupA_updateA, if_pos rfl])
          exact ⟨e2, hl2, Nat.le_trans hle hle2⟩
        · obtain ⟨e2, hl2, hle2⟩ :=
            ih _ l h k e (by rw [lookupA_updateA, if_neg hkq]; exact he)
          exact ⟨e2, hl2, hle2⟩
      · exact ih m l h k e he

/-- Every successfully stat'ed candidate ends up covered: the finished
manifest has an entry for its key, at least as new as the candidate. -/
theorem buildLoop_cover (files : List (String × StatResult)) :
    ∀ m l, buildLoop m files = .ok l → ∀ fn t, (fn, StatResult.ok t) ∈ files →
      ∃ e, lookupA l (keyOf fn) = some e ∧ t ≤ e.modTime := by
  induction files with
  | nil =>
    intro m l h fn t hmem
    exact absurd hmem (List.not_mem_nil _)
  | cons f rest ih =>
    obtain ⟨fn0, st0⟩ := f
    intro m l h fn t hmem
    rcases List.mem_cons.mp hmem with heq | hmem'
    · have hfn : fn0 = fn := (Prod.mk.injEq _ _ _ _ ▸ heq.symm).1
      have hst : st0 = StatResult.ok t := (Prod.mk.injEq _ _ _ _ ▸ heq.symm).2
      subst hfn
      subst hst
      simp only [buildLoop] at h
      split at h
      · obtain ⟨e2, hl2, hle2⟩ :=
          buildLoop_mono rest _ l h (keyOf fn0) ⟨baseNameS fn0, fn0, t⟩
            (by rw [lookupA_updateA, if_pos rfl])
        exact ⟨e2, hl2, hle2⟩
      · rename_i hcond
        push_neg at hcond
        obtain ⟨hne, hge⟩ := hcond
        cases hlk : lookupA m (keyOf fn0) with
        | none => rw [hlk, Option.getD_none] at hne; exact absurd rfl hne
        | some e0 =>
          rw [hlk, Option.getD_some] at hne hge
          obtain ⟨e2, hl2, hle2⟩ := buildLoop_mono rest m l h (keyOf fn0) e0 hlk
          exact ⟨e2, hl2, Nat.le_trans (Nat.le_of_not_lt (by omega)) hle2⟩
    · cases st0 with
      | notExist => exact ih m l h fn t hmem'
      | otherError => exact absurd h (by simp [buildLoop])
      | ok t0 =>
        simp only [buildLoop] at h
        split at h
        · exact ih _ l h fn t hmem'
        · exact ih m l h fn t hmem'

/-- Provenance: every entry of the finished manifest either was already in
the starting map or comes verbatim from one of the candidates, whose key
matches the slot it occupies. -/
theorem buildLoop_prov (files : List (String × StatResult)) :
    ∀ m l, buildLoop m files = .ok l → ∀ k e, lookupA l k = some e →
      lookupA m k = some e ∨
        ∃ fn t, (fn, StatResult.ok t) ∈ files ∧ keyOf fn = k ∧
          e = ⟨baseNameS fn, fn, t⟩ := by
  induction files with
  | nil =>
    intro m l h k e hl
    simp only [buildLoop, Except.ok.injEq] at h
    exact Or.inl (h ▸ hl)
  | cons f rest ih =>
    obtain ⟨fn0, st0⟩ := f
    intro m l h k e hl
    cases st0 with
    | notExist =>
      rcases ih m l h k e hl with h' | ⟨fn, t, hmem, hk, he⟩
      · exact Or.inl h'
      · exact Or.inr ⟨fn, t, List.mem_cons_of_mem _ hmem, hk, he⟩
    | otherError => exact absurd h (by simp [buildLoop])
    | ok t0 =>
      simp only [buildLoop] at h
      split at h
      · rcases ih _ l h k e hl with h' | ⟨fn, t, hmem, hk, he⟩
        · rw [lookupA_updateA] at h'
          by_cases hkq : keyOf fn0 = k
          · rw [if_pos hkq] at h'
            refine Or.inr ⟨fn0, t0, List.mem_cons_self _ _, hkq, ?_⟩
            exact (Option.some.injEq _ _ ▸ h').symm
          · rw [if_neg hkq] at h'
            exact Or.inl h'
        · exact Or.inr ⟨fn, t, List.mem_cons_of_mem _ hmem, hk, he⟩
      · rcases ih m l h k e hl with h' | ⟨fn, t, hmem, hk, he⟩
        · exact Or.inl h'
        · exact Or.inr ⟨fn, t, List.mem_cons_of_mem _ hmem, hk, he⟩

/-! ### Claim theorems -/

/-- C1 (manifest invariant, one entry per key, newest wins): for every
sequence of candidates, a successful build yields a manifest with pairwise
distinct keys; every entry comes verbatim from a successfully stat'ed
candidate whose canonicalized base name is its key; its modification time
is at least that of every successfully stat'ed candidate for the same key;
and every successfully stat'ed candidate's key is present.  The concrete
two-candidate example of the claim is instantiated in the witness. -/
theorem c1_manifest_invariant_newest_wins (files : List (String × StatResult))
    (l : List (String × FmapEntry)) (h : buildFmap files = .ok l) :
    (l.map Prod.fst).Pairwise (fun a b => a ≠ b)
    ∧ (∀ k e, lookupA l k = some e →
        ∃ fn t, (fn, StatResult.ok t) ∈ files ∧ keyOf fn = k ∧
          e = ⟨baseNameS fn, fn, t⟩)
    ∧ (∀ k e, lookupA l k = some e → ∀ fn t, (fn, StatResult.ok t) ∈ files →
        keyOf fn = k → t ≤ e.modTime)
    ∧ (∀ fn t, (fn, StatResult.ok t) ∈ files →
        ∃ e, lookupA l (keyOf fn) = some e) := by
  refine ⟨buildLoop_pairwise files [] l h (by simp), ?_, ?_, ?_⟩
  · intro k e hl
    rcases buildLoop_prov files [] l h k e hl with h' | h'
    · exact absurd h' (by simp [lookupA])
    · exact h'
  · intro k e hl fn t hmem hk
    obtain ⟨e2, hl2, hle⟩ := buildLoop_cover files [] l h fn t hmem
    rw [hk, hl] at hl2
    injection hl2 with he2
    rw [he2]
    exact hle
  · intro fn t hmem
    obtain ⟨e, he, _⟩ := buildLoop_cover files [] l h fn t hmem
    exact ⟨e, he⟩

/-- C1 witness: the claim's concrete example, in both input orders, and an
instantiation of the general theorem at the first order. -/
theorem c1_witness :
    buildFmap [("a-11111111.css", StatResult.ok 1), ("a-22222222.css", StatResult.ok 2)] =
      Except.ok [("a.css", ⟨"a-22222222.css", "a-22222222.css", 2⟩)]
    ∧ buildFmap [("a-22222222.css", StatResult.ok 2), ("a-11111111.css", StatResult.ok 1)] =
      Except.ok [("a.css", ⟨"a-22222222.css", "a-22222222.css", 2⟩)]
    ∧ ∃ e, lookupA [("a.css", (⟨"a-22222222.css", "a-22222222.css", 2⟩ : FmapEntry))]
        (keyOf "a-11111111.css") = some e :=
  ⟨rfl, rfl,
    (c1_manifest_invariant_newest_wins
      [("a-11111111.css", StatResult.ok 1), ("a-22222222.css", StatResult.ok 2)]
      [("a.css", ⟨"a-22222222.css", "a-22222222.css", 2⟩)] rfl).2.2.2
      "a-11111111.css" 1 (List.mem_cons_self _ _)⟩

/-- C2 counterexample: two candidates for key `"b.css"` with equal nonzero
modification times; the finished manifest holds the candidate fed FIRST
(`"b-aaaaaaaa.css"`), not the one fed last, refuting the claim. -/
theorem c2_counterexample :
    buildFmap [("b-aaaaaaaa.css", StatResult.ok 5), ("b-bbbbbbbb.css", StatResult.ok 5)] =
      Except.ok [("b.css", ⟨"b-aaaaaaaa.css", "b-aaaaaaaa.css", 5⟩)]
    ∧ (("b-aaaaaaaa.css" : String) == "b-bbbbbbbb.css") = false :=
  ⟨rfl, by decide⟩

/-- C2 amended: for two candidates with the same key and equal modification
time `t`, the manifest keeps the FIRST-fed candidate when `t` is nonzero
(replacement requires the stored time to be zero or strictly older), and the
LAST-fed candidate when `t` is zero (the `IsZero` disjunct fires). -/
theorem c2_amended_tie_first_wins (p1 p2 : String) (t : Nat)
    (l : List (String × FmapEntry)) (hk : keyOf p2 = keyOf p1)
    (h : buildFmap [(p1, StatResult.ok t), (p2, StatResult.ok t)] = .ok l) :
    lookupA l (keyOf p1) =
      some (if t = 0 then ⟨baseNameS p2, p2, t⟩ else ⟨baseNameS p1, p1, t⟩) := by
  by_cases ht : t = 0
  · subst ht
    have hl : l = [(keyOf p1, ⟨baseNameS p2, p2, 0⟩)] := by
      have h2 := h
      simp [buildFmap, buildLoop, lookupA, updateA, zeroEntry, hk] at h2
      exact h2.symm
    subst hl
    simp [lookupA]
  · have hl : l = [(keyOf p1, ⟨baseNameS p1, p1, t⟩)] := by
      have h2 := h
      simp [buildFmap, buildLoop, lookupA, updateA, zeroEntry, hk, ht] at h2
      exact h2.symm
    subst hl
    simp [lookupA, ht]

/-- C2 amended witness: the nonzero tie keeps the first candidate, the
all-zero tie keeps the last. -/
theorem c2_amended_witness :
    lookupA [("b.css", (⟨"b-aaaaaaaa.css", "b-aaaaaaaa.css", 5⟩ : FmapEntry))]
      (keyOf "b-aaaaaaaa.css") =
      some (if 5 = 0 then ⟨baseNameS "b-bbbbbbbb.css", "b-bbbbbbbb.css", 5⟩
        else ⟨baseNameS "b-aaaaaaaa.css", "b-aaaaaaaa.css", 5⟩)
    ∧ lookupA [("b.css", (⟨"b-bbbbbbbb.css", "b-bbbbbbbb.css", 0⟩ : FmapEntry))]
      (keyOf "b-aaaaaaaa.css") =
      some (if 0 = 0 then ⟨baseNameS "b-bbbbbbbb.css", "b-bbbbbbbb.css", 0⟩
        else ⟨baseNameS "b-aaaaaaaa.css", "b-aaaaaaaa.css", 0⟩) :=
  ⟨c2_amended_tie_first_wins "b-aaaaaaaa.css" "b-bbbbbbbb.css" 5 _ (by decide) rfl,
   c2_amended_tie_first_wins "b-aaaaaaaa.css" "b-bbbbbbbb.css" 0 _ (by decide) rfl⟩

/-- C3 counterexample: canonicalization is not idempotent.  Stripping the
second fingerprint of `"x-deadbeef-deadbeef.css"` exposes the first, so a
second pass strips again. -/
theorem c3_counterexample :
    stripSlug "x-deadbeef-deadbeef.css" = "x-deadbeef.css"
    ∧ stripSlug (stripSlug "x-deadbeef-deadbeef.css") = "x.css"
    ∧ ((stripSlug (stripSlug "x-deadbeef-deadbeef.css") ==
        stripSlug "x-deadbeef-deadbeef.css") = false) :=
  ⟨by decide, by decide, by decide⟩

/-- C3 amended: `stripSlug (stripSlug x) = stripSlug x` holds exactly when
the once-stripped string contains no further occurrence of the slug
pattern; it is not an identity of all strings. -/
theorem c3_amended_idempotent_iff (s : String) :
    stripSlug (stripSlug s) = stripSlug s ↔ hasMatchB (stripSlug s).data = false := by
  constructor
  · intro h
    cases hm : hasMatchB (stripSlug s).data with
    | false => rfl
    | true =>
      have hlt := length_stripSlugL_lt_of_hasMatchB _ hm
      have hdata : stripSlugL (stripSlug s).data = (stripSlug s).data := by
        have := congrArg String.data h
        simpa [stripSlug] using this
      rw [hdata] at hlt
      exact absurd hlt (Nat.lt_irrefl _)
  · intro h
    show (⟨stripSlugL (stripSlug s).data⟩ : String) = stripSlug s
    rw [stripSlugL_eq_self_of_not_hasMatchB _ h]

/-- C3 amended witness: a typical singly-fingerprinted name is a fixed point
after one pass. -/
theorem c3_amended_witness :
    stripSlug (stripSlug "a-deadbeef.css") = stripSlug "a-deadbeef.css" :=
  (c3_amended_idempotent_iff "a-deadbeef.css").mpr (by decide)

/-- C4 counterexample: the round trip fails for the extension-less logical
name `"a"` (a fixed point of `stripSlug`) with the valid 8-lowercase-hex
fingerprint `"aaaaaaaa"`: the inserted fingerprint is not followed by a
dot, so `stripSlug` cannot remove it. -/
theorem c4_counterexample :
    insertFingerprint "a" "aaaaaaaa" = "a-aaaaaaaa"
    ∧ ((stripSlug (insertFingerprint "a" "aaaaaaaa") == "a") = false)
    ∧ stripSlug "a" = "a"
    ∧ ("aaaaaaaa" : String).data.length = 8
    ∧ ("aaaaaaaa" : String).data.all isHexLower = true :=
  ⟨by decide, by decide, by decide, by decide, by decide⟩

/-- C4 amended: the round trip
`stripSlug (insertFingerprint L H) = L` holds for every 8-lowercase-hex `H`
provided the logical name `L` is slash-free, contains no occurrence of the
slug pattern (as a canonical name must), and has a nonempty
`filepath.Ext` extension. -/
theorem c4_amended_roundtrip (L H : String)
    (hslash : ∀ c ∈ L.data, c ≠ '/')
    (hnm : hasMatchB L.data = false)
    (hext : extS L ≠ "")
    (hlen : H.data.length = 8)
    (hhex : ∀ c ∈ H.data, isHexLower c = true) :
    stripSlug (insertFingerprint L H) = L := by
  have hextL : extL L.data ≠ [] := by
    intro h0
    apply hext
    show (⟨extL L.data⟩ : String) = ""
    rw [h0]
  obtain ⟨B, E, hLeq, hextEq, hE⟩ := extL_structure L.data hextL
  rcases hH : H.data with _ | ⟨a1, _ | ⟨a2, _ | ⟨a3, _ | ⟨a4, _ | ⟨a5, _ | ⟨a6, _ | ⟨a7, _ | ⟨a8, tl⟩⟩⟩⟩⟩⟩⟩⟩
  all_goals rw [hH] at hlen
  all_goals simp at hlen
  subst hlen
  have ha1 : isHexLower a1 = true := hhex a1 (by rw [hH]; simp)
  have ha2 : isHexLower a2 = true := hhex a2 (by rw [hH]; simp)
  have ha3 : isHexLower a3 = true := hhex a3 (by rw [hH]; simp)
  have ha4 : isHexLower a4 = true := hhex a4 (by rw [hH]; simp)
  have ha5 : isHexLower a5 = true := hhex a5 (by rw [hH]; simp)
  have ha6 : isHexLower a6 = true := hhex a6 (by rw [hH]; simp)
  have ha7 : isHexLower a7 = true := hhex a7 (by rw [hH]; simp)
  have ha8 : isHexLower a8 = true := hhex a8 (by rw [hH]; simp)
  have hL0 : L.data ≠ [] := by
    rw [hLeq]
    simp
  have hbase : baseNameL L.data = L.data := baseNameL_eq_self _ hL0 hslash
  have htrim : trimSuffixL L.data ('.' :: E) = B := by
    rw [hLeq]
    exact trimSuffixL_append B ('.' :: E)
  have hins : (insertFingerprint L H).data =
      B ++ '-' :: a1 :: a2 :: a3 :: a4 :: a5 :: a6 :: a7 :: a8 :: '.' :: E := by
    show (trimSuffixS (baseNameS L) (extS L) ++ "-" ++ H ++ extS L).data = _
    rw [String.data_append, String.data_append, String.data_append]
    rw [show (trimSuffixS (baseNameS L) (extS L)).data =
      trimSuffixL (baseNameL L.data) (extL L.data) from rfl]
    rw [hbase, hextEq, htrim]
    rw [show ("-" : String).data = ['-'] from rfl]
    rw [hH]
    rw [show (extS L).data = extL L.data from rfl, hextEq]
    simp
  have hstrip : stripSlugL (insertFingerprint L H).data = B ++ '.' :: E := by
    rw [hins]
    exact stripSlugL_insert a1 a2 a3 a4 a5 a6 a7 a8 ha1 ha2 ha3 ha4 ha5 ha6 ha7 ha8
      B E hE (hLeq ▸ hnm)
  show (⟨stripSlugL (insertFingerprint L H).data⟩ : String) = L
  rw [hstrip, ← hLeq]

/-- C4 amended witness: the round trip at a concrete well-formed input. -/
theorem c4_amended_witness :
    stripSlug (insertFingerprint "a.css" "deadbeef") = "a.css" :=
  c4_amended_roundtrip "a.css" "deadbeef" (by decide) (by decide) (by decide)
    (by decide) (by decide)

/-- C5 (missing-file tolerance vs. fatal stat failure): a `notExist` stat
outcome is skipped without affecting the rest of the build or the exit
status; any other stat failure aborts the whole build with an error naming
the offending path; and the claim's concrete scenario (one missing file,
one existing file) yields exactly the existing file's entry. -/
theorem c5_stat_error_policy :
    (∀ (fn : String) (rest : List (String × StatResult))
        (m : List (String × FmapEntry)),
      buildLoop m ((fn, StatResult.notExist) :: rest) = buildLoop m rest)
    ∧ (∀ (fn : String) (rest : List (String × StatResult))
        (m : List (String × FmapEntry)),
      buildLoop m ((fn, StatResult.otherError) :: rest) = Except.error fn)
    ∧ buildFmap [("missing.css", StatResult.notExist), ("a-11111111.css", StatResult.ok 3)] =
        Except.ok [("a.css", ⟨"a-11111111.css", "a-11111111.css", 3⟩)] :=
  ⟨fun _ _ _ => rfl, fun _ _ _ => rfl, rfl⟩

/-- C6 (lookup consistency): `FileName`/`FileExists` join their parts by
plain concatenation with no separator; for a key present in the manifest
`FileExists` returns `true` and `FileName` the stored base name; for an
absent key they return `false` and `""`.  Both are total pure functions of
the manifest (the embedding's type), so they never fail nor mutate it. -/
theorem c6_lookup_consistency (v : Bool) (m : List (String × FmapEntry))
    (K : String) (parts : List String) :
    ((fileNameFunc v m parts).1 = (fileNameFunc v m [String.join parts]).1
      ∧ (fileExistsFunc v m parts).1 = (fileExistsFunc v m [String.join parts]).1)
    ∧ (∀ e, lookupA m K = some e →
        (fileExistsFunc v m [K]).1 = true ∧ (fileNameFunc v m [K]).1 = e.name)
    ∧ (lookupA m K = none →
        (fileExistsFunc v m [K]).1 = false ∧ (fileNameFunc v m [K]).1 = "") := by
  refine ⟨⟨rfl, rfl⟩, ?_, ?_⟩
  · intro e he
    constructor
    · show (lookupA m (String.join [K])).isSome = true
      rw [show String.join [K] = K from rfl, he]
      rfl
    · show (match lookupA m (String.join [K]) with
        | none => "" | some fme => fme.name) = e.name
      rw [show String.join [K] = K from rfl, he]
  · intro he
    constructor
    · show (lookupA m (String.join [K])).isSome = false
      rw [show String.join [K] = K from rfl, he]
      rfl
    · show (match lookupA m (String.join [K]) with
        | none => "" | some fme => fme.name) = ""
      rw [show String.join [K] = K from rfl, he]

/-- C6 witness: present and absent keys on a concrete one-entry manifest. -/
theorem c6_witness :
    ((fileExistsFunc false
        [("a.css", ⟨"a-22222222.css", "pub/a-22222222.css", 2⟩)] ["a.css"]).1 = true
      ∧ (fileNameFunc false
        [("a.css", ⟨"a-22222222.css", "pub/a-22222222.css", 2⟩)] ["a.css"]).1 =
          FmapEntry.name ⟨"a-22222222.css", "pub/a-22222222.css", 2⟩)
    ∧ ((fileExistsFunc false
        [("a.css", ⟨"a-22222222.css", "pub/a-22222222.css", 2⟩)] ["z.css"]).1 = false
      ∧ (fileNameFunc false
        [("a.css", ⟨"a-22222222.css", "pub/a-22222222.css", 2⟩)] ["z.css"]).1 = "") :=
  ⟨(c6_lookup_consistency false
      [("a.css", ⟨"a-22222222.css", "pub/a-22222222.css", 2⟩)] "a.css" []).2.1
      ⟨"a-22222222.css", "pub/a-22222222.css", 2⟩ (by decide),
   (c6_lookup_consistency false
      [("a.css", ⟨"a-22222222.css", "pub/a-22222222.css", 2⟩)] "z.css" []).2.2
      (by decide)⟩

/-- C7 (tmpl-out overwrite refusal): with `--force` absent and the target
path existing (nil stat error), the branch exits successfully without
writing anything; when the path does not exist or `--force` is given, the
built-in default template document is written verbatim. -/
theorem c7_tmpl_out_policy (force : Bool) (st : StatResult) :
    (force = false → statErrIsNone st = true →
      tmplOutBranch force st = TmplOutOutcome.exitOkNoWrite)
    ∧ (st = StatResult.notExist ∨ force = true →
      tmplOutBranch force st = TmplOutOutcome.writeDefault defaultPageTmpl) := by
  constructor
  · intro hf hs
    rw [tmplOutBranch, if_pos ⟨hf, hs⟩]
  · intro h
    have hne : ¬(force = false ∧ statErrIsNone st = true) := by
      rintro ⟨hf, hs⟩
      rcases h with h | h
      · rw [h] at hs
        exact Bool.noConfusion hs
      · rw [h] at hf
        exact Bool.noConfusion hf
    rw [tmplOutBranch, if_neg hne]

/-- C7 witness: the three concrete scenarios of the claim. -/
theorem c7_witness :
    tmplOutBranch false (StatResult.ok 0) = TmplOutOutcome.exitOkNoWrite
    ∧ tmplOutBranch false StatResult.notExist =
        TmplOutOutcome.writeDefault defaultPageTmpl
    ∧ tmplOutBranch true (StatResult.ok 0) =
        TmplOutOutcome.writeDefault defaultPageTmpl :=
  ⟨(c7_tmpl_out_policy false (StatResult.ok 0)).1 rfl rfl,
   (c7_tmpl_out_policy false StatResult.notExist).2 (Or.inl rfl),
   (c7_tmpl_out_policy true (StatResult.ok 0)).2 (Or.inr rfl)⟩

set_option maxRecDepth 20000 in
/-- C8 (default-template render): the embedded default template references
the template function `FileNameListForExt`, which is NOT among the names
bound in the `FuncMap` (`PageBaseName`, `FileName`, `FileExists`), so
parsing the default template must fail (spec 4.4: referencing an unbound
name is a `TemplateError`) and the claimed successful render cannot happen;
the default page base name is `"index"` as the claim states. -/
theorem c8_default_template_unbound_function :
    occursIn ("FileNameListForExt".data) defaultPageTmpl.data = true
    ∧ funcMapNames = ["PageBaseName", "FileName", "FileExists"]
    ∧ funcMapNames.contains "FileNameListForExt" = false
    ∧ defaultPageBaseName = "index" :=
  ⟨rfl, rfl, by decide, rfl⟩

/-- C9 (verbose noninterference): the returned values of `FileName` and
`FileExists` and the built manifest (hence everything rendered or written
from them) are identical with and without `--verbose`; the flag only adds
diagnostic log lines. -/
theorem c9_verbose_noninterference (v : Bool) (m : List (String × FmapEntry))
    (parts : List String) (files : List (String × StatResult)) :
    (fileNameFunc v m parts).1 = (fileNameFunc false m parts).1
    ∧ (fileExistsFunc v m parts).1 = (fileExistsFunc false m parts).1
    ∧ Except.map Prod.fst (buildFmapV v files) =
        Except.map Prod.fst (buildFmapV false files)
    ∧ Except.map Prod.fst (buildFmapV v files) = buildFmap files := by
  refine ⟨rfl, rfl, ?_, ?_⟩
  · cases h : buildLoop [] files <;> simp [buildFmapV, h, Except.map]
  · cases h : buildLoop [] files <;> simp [buildFmapV, buildFmap, h, Except.map]

/-- C10 (shadowed stat error in the tmpl-out branch): when `--force` is
absent and the stat of the target fails with an error other than
not-exist, the command does not abort: the later error checks read the
outer, still-nil `err`, and the branch proceeds to write the default
template to the path. -/
theorem c10_shadowed_stat_error :
    tmplOutBranch false StatResult.otherError =
      TmplOutOutcome.writeDefault defaultPageTmpl
    ∧ isFatalOutcome (tmplOutBranch false StatResult.otherError) = false :=
  ⟨rfl, rfl⟩

